import Mathlib

/-!
Shallow embedding of `mongopatcher` (file `mongopatcher/mongopatcher.py`).

The mongo database is modelled as a `DB` record holding the single manifest
document (`_id = 'manifest'`) of the mongopatcher collection, an abstract
user-data component that fix routines may mutate, and a clock supplying the
`datetime.utcnow()` timestamps.  Stateful Python methods become functions
returning the new state paired with an `Except` result; a raised exception is
an `.error` result, and — as with a real external database — all state
mutations made before the raise persist.
-/

/-- One entry of the manifest's `history` array: `{timestamp, version, reason}`. -/
structure HistoryEntry where
  timestamp : Nat
  version : String
  reason : Option String
deriving Repr, DecidableEq

/-- The manifest document: `{_id: 'manifest', version, history}` (the fixed
`_id` key is implicit in the embedding). -/
structure ManifestDoc where
  version : String
  history : List HistoryEntry
deriving Repr, DecidableEq

/-- The database state: the manifest document of the mongopatcher collection
(`none` when the datamodel is uninitialized), an abstract user-data component
that fix routines operate on, and the clock used for timestamps. -/
structure DB where
  manifest : Option ManifestDoc
  data : Nat
  clock : Nat
deriving Repr, DecidableEq

/-- Exceptions of the program.  In the Python source the first three are all
the single class `DatamodelManifestError`, distinguished only by message;
`invalidVersionFormat` is the `AssertionError` of `_check_version_format`;
`fixError` is an arbitrary exception escaping a fix routine. -/
inductive MpError where
  | manifestMissing
  | manifestAlreadyExists
  | versionMismatch (required available : String)
  | invalidVersionFormat (version : String)
  | fixError (msg : String)
deriving Repr, DecidableEq

/-- Drop a leading run of decimal digits (the greedy `[0-9]*` tail of
`[0-9]+` in the regex). -/
def dropDigits : List Char → List Char
  | [] => []
  | c :: rest => if c.isDigit then dropDigits rest else c :: rest

/-- Match `[0-9]+` at the head of the input, returning the remainder. -/
def matchNum : List Char → Option (List Char)
  | [] => none
  | c :: rest => if c.isDigit then some (dropDigits rest) else none

/-- Match a literal dot at the head of the input, returning the remainder. -/
def matchDot : List Char → Option (List Char)
  | [] => none
  | c :: rest => if c = '.' then some rest else none

/-- Embedding of `re.match(r"[0-9]+\.[0-9]+\.[0-9]+", version)`:
`re.match` anchors at the start of the string only, so trailing characters
after the numeric triplet are accepted. -/
def versionFormatOk (s : String) : Bool :=
  (((((matchNum s.toList).bind matchDot).bind matchNum).bind matchDot).bind
    matchNum).isSome

/-- Embedding of `_check_version_format` (an `assert` on the regex match). -/
def check_version_format (version : String) : Except MpError Unit :=
  if versionFormatOk version then .ok () else .error (.invalidVersionFormat version)

/-- The `Manifest` object's in-memory state: the lazily cached manifest
document (`self._manifest`). -/
structure Manifest where
  cache : Option ManifestDoc
deriving Repr, DecidableEq

/-- Embedding of `Manifest._load_manifest` together with the lazy-cache check
`if not self._manifest` shared by the `version` and `history` properties:
return the cached document, or load it from the database, or raise
`DatamodelManifestError` when the datamodel has no manifest. -/
def Manifest.load (m : Manifest) (db : DB) : Manifest × Except MpError ManifestDoc :=
  match m.cache with
  | some doc => (m, .ok doc)
  | none =>
    match db.manifest with
    | some doc => ({ cache := some doc }, .ok doc)
    | none => (m, .error .manifestMissing)

/-- Embedding of the `Manifest.version` property. -/
def Manifest.version (m : Manifest) (db : DB) : Manifest × Except MpError String :=
  match Manifest.load m db with
  | (m2, .ok doc) => (m2, .ok doc.version)
  | (m2, .error e) => (m2, .error e)

/-- Embedding of the `Manifest.history` property. -/
def Manifest.history (m : Manifest) (db : DB) : Manifest × Except MpError (List HistoryEntry) :=
  match Manifest.load m db with
  | (m2, .ok doc) => (m2, .ok doc.history)
  | (m2, .error e) => (m2, .error e)

/-- Embedding of `Manifest.reload`: drop the cache. -/
def Manifest.reload (_ : Manifest) : Manifest := { cache := none }

/-- Embedding of `Manifest.is_initialized`: existence check of the manifest
document, not touching the cache. -/
def Manifest.is_initialized (db : DB) : Bool := db.manifest.isSome

/-- Embedding of `Manifest.initialize` (named `initManifest` because
`initialize` is a Lean keyword): validate the version, refuse when a manifest
already exists unless `force`, otherwise upsert a fresh document whose
history is the single `'Initialize version'` entry. -/
def Manifest.initManifest (db : DB) (version : String) (force : Bool) :
    DB × Except MpError Unit :=
  if versionFormatOk version then
    if !force && db.manifest.isSome then
      (db, .error .manifestAlreadyExists)
    else
      ({ db with
          manifest := some
            { version := version,
              history := [{ timestamp := db.clock, version := version,
                            reason := some "Initialize version" }] },
          clock := db.clock + 1 },
        .ok ())
  else (db, .error (.invalidVersionFormat version))

/-- Embedding of `Manifest.update`: validate the version, then issue a
non-upsert update `{$set: {version}, $push: {history: entry}}`; when no
manifest document exists the update matches nothing and silently does
nothing.  The in-memory cache is not touched. -/
def Manifest.update (db : DB) (version : String) (reason : Option String) :
    DB × Except MpError Unit :=
  if versionFormatOk version then
    match db.manifest with
    | none => (db, .ok ())
    | some doc =>
      ({ db with
          manifest := some
            { version := version,
              history := doc.history ++
                [{ timestamp := db.clock, version := version, reason := reason }] },
          clock := db.clock + 1 },
        .ok ())
  else (db, .error (.invalidVersionFormat version))

/-- A registered fix routine: its `__name__` and its action on the database.
A fix may mutate the database and then either return an optional
post-scriptum string or raise. -/
structure FixRoutine where
  name : String
  run : DB → DB × Except String (Option String)

/-- A `Patch` object after construction (the constructor's version-format
checks are modelled by `Patch.make`). -/
structure Patch where
  base_version : String
  target_version : String
  patchnote : Option String := none
  ps : Option String := none
  fixes : List FixRoutine := []

/-- Embedding of `Patch.__init__`: both versions are validated (in order)
before the object is created, with an empty fix list. -/
def Patch.make (base_version target_version : String)
    (patchnote ps : Option String) : Except MpError Patch :=
  match check_version_format base_version with
  | .error e => .error e
  | .ok () =>
    match check_version_format target_version with
    | .error e => .error e
    | .ok () => .ok { base_version, target_version, patchnote, ps }

/-- Embedding of the decorator `Patch.fix`: append the routine to the ordered
fix list. -/
def Patch.fix (p : Patch) (f : FixRoutine) : Patch := { p with fixes := p.fixes ++ [f] }

/-- Embedding of `Patch.can_be_applied`: read `manifest.version` (possibly
populating the cache) and raise a version-mismatch `DatamodelManifestError`
unless it equals `base_version`. -/
def Patch.can_be_applied (p : Patch) (m : Manifest) (db : DB) :
    Manifest × Except MpError Unit :=
  match Manifest.version m db with
  | (m2, .ok v) =>
    if v ≠ p.base_version then (m2, .error (.versionMismatch p.base_version v))
    else (m2, .ok ())
  | (m2, .error e) => (m2, .error e)

/-- Python truthiness of an optional string (`if ps:`): true exactly for a
present, non-empty string. -/
def optStrTruthy : Option String → Bool
  | some s => s ≠ ""
  | none => false

/-- The `for fix in self.fixes` loop of `Patch.apply`: run each fix in order,
collecting the truthy post-scripta prefixed with the fix's name; a raising
fix aborts the loop, keeping the mutations already made. -/
def runFixes : List FixRoutine → DB → List String → DB × Except MpError (List String)
  | [], db, acc => (db, .ok acc)
  | f :: rest, db, acc =>
    match f.run db with
    | (db2, .error e) => (db2, .error (.fixError e))
    | (db2, .ok ps) =>
      let acc2 := if optStrTruthy ps then acc ++ [f.name ++ ": " ++ ps.getD ""] else acc
      runFixes rest db2 acc2

/-- Embedding of `Patch.apply`: unless `force`, check `can_be_applied`
first; then run every fix in registration order; then update the manifest to
`target_version` with reason `'Upgrade from <base_version>'`; return the
collected post-scripta.  Each step's exception propagates, keeping the state
reached so far. -/
def Patch.apply (p : Patch) (m : Manifest) (db : DB) (force : Bool) :
    (Manifest × DB) × Except MpError (List String) :=
  match (if force then (m, .ok ()) else p.can_be_applied m db :
      Manifest × Except MpError Unit) with
  | (m2, .error e) => ((m2, db), .error e)
  | (m2, .ok ()) =>
    match runFixes p.fixes db [] with
    | (db2, .error e) => ((m2, db2), .error e)
    | (db2, .ok fixes_pss) =>
      match Manifest.update db2 p.target_version
          (some ("Upgrade from " ++ p.base_version)) with
      | (db3, .error e) => ((m2, db3), .error e)
      | (db3, .ok ()) => ((m2, db3), .ok fixes_pss)

/-- Embedding of `tools.tabulate`: indent every line of the text by a tab,
stripping each line. -/
def tabulate (txt : String) : String :=
  "\t" ++ String.intercalate "\n\t" ((txt.splitOn "\n").map (·.trim))

/-- Python's string comparison on the underlying character lists: code-point
lexicographic order (used by `sorted(..., key=lambda x: x.target_version)`). -/
def pyStrLeList : List Char → List Char → Bool
  | [], _ => true
  | _ :: _, [] => false
  | a :: as, b :: bs =>
    if a.toNat < b.toNat then true
    else if b.toNat < a.toNat then false
    else pyStrLeList as bs

/-- Python's `<=` on strings. -/
def pyStrLe (a b : String) : Bool := pyStrLeList a.toList b.toList

/-- The sort key order of `MongoPatcher.discover`. -/
def patchLe (p q : Patch) : Prop := pyStrLe p.target_version q.target_version = true

instance : DecidableRel patchLe := fun p q => inferInstanceAs (Decidable (pyStrLe p.target_version q.target_version = true))

/-- Embedding of the final statement of `MongoPatcher.discover`:
`sorted(patches, key=lambda x: x.target_version)` — a stable sort of the
collected patches by the Python string order on `target_version` (the
filesystem walk and module loading that produce the input list are outside
the embedding; the claims quantify over that list). -/
def sortPatches (patches : List Patch) : List Patch :=
  List.insertionSort patchLe patches

/-- Embedding of `{p.base_version: p for p in self.discover(directory)}`
as a lookup function: a later binding for the same key overwrites an
earlier one, with no conflict reported. -/
def buildPatchesDict (patches : List Patch) : String → Option Patch :=
  patches.foldl (fun d p => fun v => if v = p.base_version then some p else d v)
    (fun _ => none)

/-- One collected post-scriptum block:
`"Patch %s:\n%s" % (patch.target_version, tabulate('\n'.join(patch_pss)))`. -/
def mkPatchPssEntry (target : String) (patch_pss : List String) : String :=
  "Patch " ++ target ++ ":\n" ++ tabulate (String.intercalate "\n" patch_pss)

/-- The `[patch.ps] if patch.ps else []` seed of the per-patch post-scripta. -/
def psSeed (p : Patch) : List String :=
  if optStrTruthy p.ps then [p.ps.getD ""] else []

/-- The `while True` loop of `MongoPatcher.discover_and_apply`, with fuel
(the Python loop may diverge on a cyclic patch graph; `none` means the fuel
ran out before the loop finished).  A normal return carries the final
current version and the accumulated post-scripta; an exception from
`Patch.apply` propagates with the state reached.  In the dry-run case the
patch is not applied; in both cases the manifest cache is dropped
(`self.manifest.reload()`) and the walk advances to `patch.target_version`. -/
def daaLoop (dict : String → Option Patch) (dryRun : Bool) :
    Nat → Manifest → DB → String → List String →
    Option ((Manifest × DB) × Except MpError (String × List String))
  | 0, _, _, _, _ => none
  | fuel+1, m, db, current, pss =>
    match dict current with
    | none => some ((m, db), .ok (current, pss))
    | some patch =>
      match (if dryRun then ((m, db), .ok []) else Patch.apply patch m db false :
          (Manifest × DB) × Except MpError (List String)) with
      | ((m2, db2), .error e) => some ((m2, db2), .error e)
      | ((m2, db2), .ok apss) =>
        let patch_pss := psSeed patch ++ apss
        let pss2 := if patch_pss.isEmpty then pss
          else pss ++ [mkPatchPssEntry patch.target_version patch_pss]
        daaLoop dict dryRun fuel (Manifest.reload m2) db2 patch.target_version pss2

/-- Embedding of `MongoPatcher.discover_and_apply`: build the
base-version-indexed map from the sorted discovered patches, read the
current version from the manifest (raising when uninitialized), return
early with `none` payload (`'No patch to apply'`) when no patch is keyed on
it, otherwise run the walk. -/
def discover_and_apply (patches : List Patch) (dryRun : Bool)
    (m : Manifest) (db : DB) (fuel : Nat) :
    Option ((Manifest × DB) × Except MpError (Option (String × List String))) :=
  let dict := buildPatchesDict (sortPatches patches)
  match Manifest.version m db with
  | (m2, .error e) => some ((m2, db), .error e)
  | (m2, .ok current) =>
    match dict current with
    | none => some ((m2, db), .ok none)
    | some _ =>
      (daaLoop dict dryRun fuel m2 db current []).map
        (fun r => (r.1, r.2.map (fun x => some x)))

/-- A fix routine that completes normally on every database and does not
touch the manifest document of the mongopatcher collection (the normal shape
of a data-migration fix; a fix receives the whole database handle, so this
is an assumption about the routine, made explicit). -/
def FixOk (f : FixRoutine) : Prop :=
  ∀ db, (f.run db).1.manifest = db.manifest ∧ ∃ ps, (f.run db).2 = .ok ps

/-- Forget a patch's fix routines (used to state that a dry run never
depends on them). -/
def stripFixes (p : Patch) : Patch := { p with fixes := [] }

/-- The versions visited by the pure version-walk over the patch map in at
most `n` steps, keeping only those with an outgoing edge. -/
def chainList (dict : String → Option Patch) : Nat → String → List String
  | 0, _ => []
  | n+1, v =>
    match dict v with
    | none => []
    | some p => v :: chainList dict n p.target_version

/-- Whether the pure version-walk reaches a version with no outgoing edge
within `n` steps. -/
def walkTerm (dict : String → Option Patch) : Nat → String → Bool
  | 0, _ => false
  | n+1, v =>
    match dict v with
    | none => true
    | some p => walkTerm dict n p.target_version

/-- A non-empty run of decimal digits. -/
def isDigitRun (l : List Char) : Bool := !l.isEmpty && l.all Char.isDigit

/-- Split a character list on every dot. -/
def splitOnDot : List Char → List (List Char)
  | [] => [[]]
  | c :: rest =>
    if c = '.' then [] :: splitOnDot rest
    else
      match splitOnDot rest with
      | h :: t => (c :: h) :: t
      | [] => [[c]]

/-- The spec's words for a valid version: a string that is exactly three
dot-separated non-negative integer runs `"a.b.c"` (stated as a second,
spec-side definition to compare with the source's `versionFormatOk`). -/
def specVersionTriplet (s : String) : Bool :=
  match splitOnDot s.toList with
  | [a, b, c] => isDigitRun a && isDigitRun b && isDigitRun c
  | _ => false

/-- A patch with the given versions and no note, post-scriptum or fixes. -/
def mkPatch (b t : String) : Patch := { base_version := b, target_version := t }

/-- The six-patch fixture of the repository's test suite
(`tests/test_patches`), in discovery order by ascending base version. -/
def fixturePatches : List Patch :=
  [mkPatch "0.0.0" "1.0.0", mkPatch "1.0.0" "1.0.1", mkPatch "1.0.1" "1.0.2",
   mkPatch "1.0.2" "1.1.0", mkPatch "1.1.1" "1.1.9", mkPatch "1.1.9" "1.1.10"]

/-- First patch discovered for base version `1.0.0`. -/
def patchA : Patch := mkPatch "1.0.0" "2.0.0"

/-- Second patch discovered for the same base version `1.0.0`. -/
def patchB : Patch := mkPatch "1.0.0" "1.5.0"

/-- The hop `0.0.0 -> 1.0.0` with the given fixes. -/
def chainPatch1 (fixes : List FixRoutine) : Patch :=
  { base_version := "0.0.0", target_version := "1.0.0", fixes := fixes }

/-- The hop `1.0.0 -> 1.0.1` with the given fixes. -/
def chainPatch2 (fixes : List FixRoutine) : Patch :=
  { base_version := "1.0.0", target_version := "1.0.1", fixes := fixes }

/-- The hop `1.0.1 -> 1.0.2` with the given fixes. -/
def chainPatch3 (fixes : List FixRoutine) : Patch :=
  { base_version := "1.0.1", target_version := "1.0.2", fixes := fixes }

/-- The hop `1.0.2 -> 1.1.0` with the given fixes. -/
def chainPatch4 (fixes : List FixRoutine) : Patch :=
  { base_version := "1.0.2", target_version := "1.1.0", fixes := fixes }

/-- The patch chain `0.0.0 -> 1.0.0 -> 1.0.1 -> 1.0.2 -> 1.1.0`. -/
def chainPatches (f1 f2 f3 f4 : List FixRoutine) : List Patch :=
  [chainPatch1 f1, chainPatch2 f2, chainPatch3 f3, chainPatch4 f4]

/-- The manifest document right after `initialize('0.0.0')`. -/
def initDoc (t0 : Nat) : ManifestDoc :=
  { version := "0.0.0",
    history := [{ timestamp := t0, version := "0.0.0",
                  reason := some "Initialize version" }] }

/-- A database whose manifest was initialized at version `0.0.0`. -/
def dbInit (t0 d c : Nat) : DB := { manifest := some (initDoc t0), data := d, clock := c }

/-- A fresh, uninitialized database. -/
def dbEmpty : DB := { manifest := none, data := 0, clock := 0 }

/-- The `Manifest` operations a caller can perform (used to state the
append-only-history invariant). -/
inductive MOp where
  | initOp (version : String) (force : Bool)
  | updateOp (version : String) (reason : Option String)
  | reloadOp
  | readVersionOp
  | readHistoryOp
  | isInitializedOp
deriving Repr, DecidableEq

/-- Run one `Manifest` operation on the in-memory object and the database;
a raised exception leaves the state the operation reached (none of these
operations mutates state before raising). -/
def mstep : Manifest × DB → MOp → Manifest × DB
  | (m, db), .initOp v force => (m, (Manifest.initManifest db v force).1)
  | (m, db), .updateOp v r => (m, (Manifest.update db v r).1)
  | (m, _db), .reloadOp => (Manifest.reload m, _db)
  | (m, db), .readVersionOp => ((Manifest.version m db).1, db)
  | (m, db), .readHistoryOp => ((Manifest.history m db).1, db)
  | (m, db), .isInitializedOp => (m, db)

/-- The persisted history of a database (empty when uninitialized). -/
def histOf (db : DB) : List HistoryEntry :=
  match db.manifest with
  | some doc => doc.history
  | none => []

/-- Run a sequence of `Manifest` operations. -/
def runOps (s : Manifest × DB) (ops : List MOp) : Manifest × DB := ops.foldl mstep s

/-- Whether an operation is anything but a forced initialize. -/
def allowedOp : MOp → Bool
  | .initOp _ true => false
  | _ => true

/-- A fix routine that does nothing and returns no post-scriptum. -/
def noopFix : FixRoutine := { name := "noop", run := fun db => (db, .ok none) }

/-- A fix routine that raises on every database without mutating it. -/
def badFix : FixRoutine := { name := "bad", run := fun db => (db, .error "boom") }

/-- A patch built from all five construction-time components. -/
def patchOf (b t : String) (pn psn : Option String) (fxs : List FixRoutine) : Patch :=
  { base_version := b, target_version := t, patchnote := pn, ps := psn, fixes := fxs }

/-! ## Helper lemmas -/

/-- Running a list of well-behaved fixes succeeds and leaves the manifest
document untouched. -/
theorem runFixes_ok : ∀ (fxs : List FixRoutine), (∀ f ∈ fxs, FixOk f) →
    ∀ db acc, ∃ db2 pss,
      runFixes fxs db acc = (db2, Except.ok pss) ∧ db2.manifest = db.manifest
  | [], _, db, acc => ⟨db, acc, rfl, rfl⟩
  | f :: rest, h, db, acc => by
    obtain ⟨hman, ps, hps⟩ := h f (List.mem_cons_self f rest) db
    have hrun : f.run db = ((f.run db).1, Except.ok ps) := by rw [← hps]
    obtain ⟨db2, pss, heq, hm2⟩ :=
      runFixes_ok rest (fun g hg => h g (List.mem_cons_of_mem f hg)) (f.run db).1
        (if optStrTruthy ps then acc ++ [f.name ++ ": " ++ ps.getD ""] else acc)
    refine ⟨db2, pss, ?_, by rw [hm2, hman]⟩
    rw [runFixes, hrun]
    exact heq

/-- Decomposition of the fix loop over an appended list. -/
theorem runFixes_append : ∀ (l1 l2 : List FixRoutine) (db : DB) (acc : List String),
    runFixes (l1 ++ l2) db acc =
      match runFixes l1 db acc with
      | (db2, .ok acc2) => runFixes l2 db2 acc2
      | (db2, .error e) => (db2, .error e)
  | [], _, _, _ => rfl
  | f :: rest, l2, db, acc => by
    rw [List.cons_append, runFixes, runFixes]
    rcases hr : f.run db with ⟨db2, r⟩
    cases r with
    | error e => rfl
    | ok ps => exact runFixes_append rest l2 db2 _

/-- A dict built by folding key bindings looks up the last binding for the
key, falling back to the initial dict. -/
theorem foldlDict_lookup : ∀ (l : List Patch) (d0 : String → Option Patch) (v : String),
    (l.foldl (fun d p => fun w => if w = p.base_version then some p else d w) d0) v =
      match l.reverse.find? (fun p => p.base_version == v) with
      | some p => some p
      | none => d0 v
  | [], _, _ => rfl
  | p :: t, d0, v => by
    rw [List.foldl_cons, foldlDict_lookup t _ v, List.reverse_cons, List.find?_append]
    cases ht : t.reverse.find? (fun q => q.base_version == v) with
    | some q => rfl
    | none =>
      by_cases hv : v = p.base_version
      · simp [List.find?, hv, Option.or]
      · have : (p.base_version == v) = false := by
          simp [beq_iff_eq]
          exact fun hh => hv hh.symm
        simp [List.find?, this, Option.or, hv]

/-- The base-version map of `discover_and_apply` looks up the last patch in
the discovered list claiming the key. -/
theorem buildPatchesDict_eq_find (l : List Patch) (v : String) :
    buildPatchesDict l v = l.reverse.find? (fun p => p.base_version == v) := by
  rw [buildPatchesDict, foldlDict_lookup]
  cases l.reverse.find? (fun p => p.base_version == v) <;> rfl

/-! ## C4 -/

/-- C4: on the six-patch fixture, `discover` sorts by the Python string
order on `target_version`, which is lexicographic by code point: it places
`1.1.10` BEFORE `1.1.9`, contradicting the claimed ascending version order
(and the repository's own test, which expects `1.1.9` before `1.1.10`). -/
theorem c4_discover_sorts_lexicographically :
    (sortPatches fixturePatches).map Patch.target_version =
      ["1.0.0", "1.0.1", "1.0.2", "1.1.0", "1.1.10", "1.1.9"] ∧
    (sortPatches fixturePatches).map Patch.target_version ≠
      ["1.0.0", "1.0.1", "1.0.2", "1.1.0", "1.1.9", "1.1.10"] := by
  constructor <;> decide

/-! ## C8 -/

/-- C8 counterexample: two patches share base version `1.0.0`; the
later-discovered one is `patchB` (target `1.5.0`), but the map built from
the sorted discovery output keeps `patchA` (target `2.0.0`), because the
sort reorders them before the map is built. -/
theorem c8_counterexample :
    ((buildPatchesDict (sortPatches [patchA, patchB]) "1.0.0").map Patch.target_version
        = some "2.0.0") ∧
    ((buildPatchesDict (sortPatches [patchA, patchB]) "1.0.0").map Patch.target_version
        ≠ some patchB.target_version) := by
  constructor <;> decide

/-- C8 (amended): for a duplicated base version, the map built by
`discover_and_apply` keeps the patch occurring LAST in the
sorted-by-target-version list that `discover` returns (the last-discovered
patch only when the sort preserves their relative order, e.g. on equal
target versions), with no error or conflict reported. -/
theorem c8_last_in_sorted_wins (patches : List Patch) (v : String) :
    buildPatchesDict (sortPatches patches) v =
      (sortPatches patches).reverse.find? (fun p => p.base_version == v) :=
  buildPatchesDict_eq_find _ v

/-! ## C9 -/

/-- Dropping digits from an all-digit run followed by a dot stops at the
dot. -/
theorem dropDigits_digits_dot (t : List Char) : ∀ (a : List Char),
    (∀ c ∈ a, c.isDigit = true) → dropDigits (a ++ '.' :: t) = '.' :: t
  | [], _ => by
    have hdot : ('.' : Char).isDigit = false := by decide
    simp [dropDigits, hdot]
  | c :: a', h => by
    have hc := h c (List.mem_cons_self c a')
    rw [List.cons_append, dropDigits]
    simp only [hc, if_true]
    exact dropDigits_digits_dot t a' (fun x hx => h x (List.mem_cons_of_mem c hx))

/-- Every list is its leading digit run followed by `dropDigits` of it. -/
theorem dropDigits_decomp : ∀ (l : List Char),
    ∃ d, l = d ++ dropDigits l ∧ ∀ x ∈ d, x.isDigit = true
  | [] => ⟨[], rfl, by simp⟩
  | c :: t => by
    cases hc : c.isDigit with
    | true =>
      obtain ⟨d, hd, hdig⟩ := dropDigits_decomp t
      refine ⟨c :: d, ?_, ?_⟩
      · rw [dropDigits]
        simp only [hc, if_true, List.cons_append]
        rw [← hd]
      · intro x hx
        rcases List.mem_cons.mp hx with h | h
        · rw [h]; exact hc
        · exact hdig x h
    | false =>
      refine ⟨[], ?_, by simp⟩
      rw [dropDigits]
      simp [hc]

/-- A successful `matchNum` consumed a non-empty digit run. -/
theorem matchNum_some : ∀ {l r : List Char}, matchNum l = some r →
    ∃ a, l = a ++ r ∧ isDigitRun a = true := by
  intro l r h
  match l with
  | [] => simp [matchNum] at h
  | c :: t =>
    rw [matchNum] at h
    cases hc : c.isDigit with
    | false => simp [hc] at h
    | true =>
      simp only [hc, if_true, Option.some.injEq] at h
      obtain ⟨d, hd, hdig⟩ := dropDigits_decomp t
      refine ⟨c :: d, ?_, ?_⟩
      · rw [List.cons_append, ← h, ← hd]
      · simp only [isDigitRun, List.isEmpty_cons, Bool.not_false, List.all_cons,
          Bool.true_and, hc, List.all_eq_true]
        exact hdig

/-- A successful `matchDot` consumed exactly one dot. -/
theorem matchDot_some : ∀ {l r : List Char}, matchDot l = some r → l = '.' :: r := by
  intro l r h
  match l with
  | [] => simp [matchDot] at h
  | c :: t =>
    rw [matchDot] at h
    by_cases hc : c = '.'
    · simp only [hc, if_true, Option.some.injEq] at h
      rw [hc, h]
    · simp [hc] at h

/-- `matchNum` on a digit run followed by a dot consumes exactly the run. -/
theorem matchNum_digits_dot (t : List Char) : ∀ (a : List Char),
    isDigitRun a = true → matchNum (a ++ '.' :: t) = some ('.' :: t) := by
  intro a h
  match a with
  | [] => simp [isDigitRun] at h
  | c :: a' =>
    have hall : ∀ x ∈ c :: a', x.isDigit = true := by
      simp only [isDigitRun, List.isEmpty_cons, Bool.not_false, Bool.true_and,
        List.all_eq_true] at h
      exact h
    have hc := hall c (List.mem_cons_self c a')
    rw [List.cons_append, matchNum]
    simp only [hc, if_true, Option.some.injEq]
    exact dropDigits_digits_dot t a' (fun x hx => hall x (List.mem_cons_of_mem c hx))

/-- `matchNum` succeeds on anything starting with a digit run. -/
theorem matchNum_digits_isSome (rest : List Char) : ∀ (c : List Char),
    isDigitRun c = true → (matchNum (c ++ rest)).isSome = true := by
  intro c h
  match c with
  | [] => simp [isDigitRun] at h
  | x :: c' =>
    have hx : x.isDigit = true := by
      simp only [isDigitRun, List.isEmpty_cons, Bool.not_false, Bool.true_and,
        List.all_cons, Bool.and_eq_true, List.all_eq_true] at h
      exact h.1
    rw [List.cons_append, matchNum]
    simp [hx]

/-- C9 counterexample: the claim says validation fails for every string not
of the exact shape `a.b.c`; the string `1.2.3x` is not of that shape, yet
the unanchored `re.match` pattern accepts it. -/
theorem c9_counterexample :
    specVersionTriplet "1.2.3x" = false ∧ versionFormatOk "1.2.3x" = true := by
  constructor <;> decide

/-- C9 (amended): validation succeeds exactly on strings that BEGIN with
three dot-separated non-negative digit runs, arbitrary trailing characters
included; and the same validator guards `Manifest.initialize`,
`Manifest.update` and `Patch` construction, each failing with the
invalid-version-format error when it rejects. -/
theorem c9_version_format_characterization :
    (∀ s : String, versionFormatOk s = true ↔
      ∃ a b c rest : List Char,
        s.toList = a ++ '.' :: (b ++ '.' :: (c ++ rest)) ∧
        isDigitRun a = true ∧ isDigitRun b = true ∧ isDigitRun c = true) ∧
    (∀ s : String, versionFormatOk s = false →
      ∀ db force r t pn ps,
        (Manifest.initManifest db s force).2 = .error (.invalidVersionFormat s) ∧
        (Manifest.update db s r).2 = .error (.invalidVersionFormat s) ∧
        Patch.make s t pn ps = .error (.invalidVersionFormat s)) := by
  constructor
  · intro s
    constructor
    · intro h
      simp only [versionFormatOk, Option.isSome_iff_exists] at h
      obtain ⟨r5, h⟩ := h
      obtain ⟨r4, h4, h5⟩ := Option.bind_eq_some.mp h
      obtain ⟨r3, h3, h4d⟩ := Option.bind_eq_some.mp h4
      obtain ⟨r2, h2, h3n⟩ := Option.bind_eq_some.mp h3
      obtain ⟨r1, h1, h2d⟩ := Option.bind_eq_some.mp h2
      obtain ⟨a, ha, hda⟩ := matchNum_some h1
      have hr1 := matchDot_some h2d
      obtain ⟨b, hb, hdb⟩ := matchNum_some h3n
      have hr3 := matchDot_some h4d
      obtain ⟨c, hc, hdc⟩ := matchNum_some h5
      exact ⟨a, b, c, r5, by rw [ha, hr1, hb, hr3, hc], hda, hdb, hdc⟩
    · rintro ⟨a, b, c, rest, hs, ha, hb, hc⟩
      simp only [versionFormatOk, hs]
      rw [matchNum_digits_dot _ a ha, Option.some_bind, matchDot,
        if_pos rfl, Option.some_bind, matchNum_digits_dot _ b hb,
        Option.some_bind, matchDot, if_pos rfl, Option.some_bind]
      exact matchNum_digits_isSome rest c hc
  · intro s h db force r t pn ps
    refine ⟨?_, ?_, ?_⟩
    · simp [Manifest.initManifest, h]
    · simp [Manifest.update, h]
    · simp [Patch.make, check_version_format, h]

/-- C9 witness: `abc` is rejected by the validator, and `Manifest.update`
surfaces that rejection. -/
theorem c9_witness :
    versionFormatOk "abc" = false ∧
      (Manifest.update dbEmpty "abc" none).2 = .error (.invalidVersionFormat "abc") :=
  ⟨by decide,
    (c9_version_format_characterization.2 "abc" (by decide) dbEmpty false none
      "1.0.0" none none).2.1⟩

/-! ## C10 -/

/-- C10: `Manifest.update` with a well-formed version on an uninitialized
database raises nothing, creates nothing, and a later version read (after a
reload) still fails with the missing-manifest error. -/
theorem c10_update_on_uninitialized_is_noop (db : DB) (v : String) (r : Option String)
    (hdb : db.manifest = none) (hv : versionFormatOk v = true) :
    Manifest.update db v r = (db, .ok ()) ∧
    ∀ m : Manifest,
      Manifest.version (Manifest.reload m) db = ({ cache := none }, .error .manifestMissing) := by
  constructor
  · simp [Manifest.update, hv, hdb]
  · intro m
    simp [Manifest.version, Manifest.load, Manifest.reload, hdb]

/-- C10 witness: a concrete silent no-op update on the empty database. -/
theorem c10_witness :
    dbEmpty.manifest = none ∧ versionFormatOk "1.0.0" = true ∧
      Manifest.update dbEmpty "1.0.0" none = (dbEmpty, .ok ()) :=
  ⟨rfl, by decide,
    (c10_update_on_uninitialized_is_noop dbEmpty "1.0.0" none rfl (by decide)).1⟩

/-! ## C5 -/

/-- One allowed `Manifest` operation (anything but a forced re-initialize)
only ever appends to the persisted history. -/
theorem mstep_hist_prefix (m : Manifest) (db : DB) (op : MOp)
    (h : allowedOp op = true) :
    histOf db <+: histOf (mstep (m, db) op).2 := by
  cases op with
  | initOp v force =>
    cases force with
    | true => exact absurd h (by simp [allowedOp])
    | false =>
      rw [mstep, Manifest.initManifest]
      by_cases hv : versionFormatOk v
      · simp only [hv, if_true]
        cases hm : db.manifest with
        | some doc => simp [hm]
        | none => simp [hm, histOf, List.nil_prefix]
      · simp [hv]
  | updateOp v r =>
    rw [mstep, Manifest.update]
    by_cases hv : versionFormatOk v
    · simp only [hv, if_true]
      cases hm : db.manifest with
      | some doc => simp [hm, histOf, List.prefix_append]
      | none => simp [hm]
    · simp [hv]
  | reloadOp => exact List.prefix_rfl
  | readVersionOp => exact List.prefix_rfl
  | readHistoryOp => exact List.prefix_rfl
  | isInitializedOp => exact List.prefix_rfl

/-- C5 counterexample: initialize, update, then forced re-initialize: the
forced re-initialize truncates the two-entry history back to one entry, so
history is NOT append-only under every sequence of Manifest operations. -/
theorem c5_counterexample :
    ¬ (histOf (runOps ({ cache := none }, dbEmpty)
          [.initOp "0.0.1" false, .updateOp "0.0.2" none]).2 <+:
       histOf (runOps ({ cache := none }, dbEmpty)
          [.initOp "0.0.1" false, .updateOp "0.0.2" none, .initOp "0.0.3" true]).2) := by
  decide

/-- C5 (amended): under every sequence of Manifest operations that contains
no FORCED initialize, the persisted history before the sequence is a prefix
of the history after it: entries keep their positions and new entries are
only appended.  (A forced initialize replaces the whole document, resetting
the history to a single entry.) -/
theorem c5_history_append_only (ops : List MOp) :
    ∀ (m : Manifest) (db : DB), (∀ op ∈ ops, allowedOp op = true) →
      histOf db <+: histOf (runOps (m, db) ops).2 := by
  induction ops with
  | nil => intro m db _; exact List.prefix_rfl
  | cons op rest ih =>
    intro m db h
    have h1 := mstep_hist_prefix m db op (h op (List.mem_cons_self op rest))
    have h2 := ih (mstep (m, db) op).1 (mstep (m, db) op).2
      (fun o ho => h o (List.mem_cons_of_mem op ho))
    rw [runOps, List.foldl_cons]
    exact h1.trans h2

/-- C5 witness: a concrete allowed sequence (initialize then update then a
read) under which the initial empty history is indeed preserved as a
prefix. -/
theorem c5_witness :
    (∀ op ∈ ([.initOp "0.0.1" false, .updateOp "0.0.2" none, .readVersionOp] : List MOp),
        allowedOp op = true) ∧
    histOf dbEmpty <+: histOf (runOps ({ cache := none }, dbEmpty)
        [.initOp "0.0.1" false, .updateOp "0.0.2" none, .readVersionOp]).2 :=
  ⟨by decide,
    c5_history_append_only [.initOp "0.0.1" false, .updateOp "0.0.2" none, .readVersionOp]
      { cache := none } dbEmpty (by decide)⟩


/-! ## C2 -/

/-- C2: when the manifest's version differs from the patch's base version,
`apply` without `force` fails with the version-mismatch error, runs no fix
(the result is the same whatever the fix list) and performs no update (the
database is returned unchanged); `apply` with `force` under the same
mismatch succeeds, running all fixes and setting the manifest version to
the patch's target version (appending the upgrade history entry). -/
theorem c2_apply_mismatch_vs_force (p : Patch) (m m2 : Manifest) (db : DB) (v : String)
    (doc : ManifestDoc)
    (hv : Manifest.version m db = (m2, .ok v))
    (hne : v ≠ p.base_version)
    (hdoc : db.manifest = some doc)
    (hfix : ∀ f ∈ p.fixes, FixOk f)
    (htv : versionFormatOk p.target_version = true) :
    (∀ l : List FixRoutine,
      Patch.apply { p with fixes := l } m db false =
        ((m2, db), .error (.versionMismatch p.base_version v))) ∧
    (∃ db3 pss t,
      Patch.apply p m db true = ((m, db3), .ok pss) ∧
      db3.manifest = some
        { version := p.target_version,
          history := doc.history ++
            [{ timestamp := t, version := p.target_version,
               reason := some ("Upgrade from " ++ p.base_version) }] }) := by
  constructor
  · intro l
    have hcba : Patch.can_be_applied { p with fixes := l } m db
        = (m2, .error (.versionMismatch p.base_version v)) := by
      rw [Patch.can_be_applied, hv]
      simp [hne]
    rw [Patch.apply]
    simp only [Bool.false_eq_true, if_false, hcba]
  · obtain ⟨db2, pss, hrf, hm2⟩ := runFixes_ok p.fixes hfix db []
    have hm2d : db2.manifest = some doc := hm2.trans hdoc
    have hupd : Manifest.update db2 p.target_version
        (some ("Upgrade from " ++ p.base_version)) =
        (⟨some ⟨p.target_version, doc.history ++
            [⟨db2.clock, p.target_version, some ("Upgrade from " ++ p.base_version)⟩]⟩,
          db2.data, db2.clock + 1⟩, .ok ()) := by
      rw [Manifest.update]
      simp [htv, hm2d]
    refine ⟨⟨some ⟨p.target_version, doc.history ++
        [⟨db2.clock, p.target_version, some ("Upgrade from " ++ p.base_version)⟩]⟩,
        db2.data, db2.clock + 1⟩, pss, db2.clock, ?_, rfl⟩
    rw [Patch.apply]
    simp only [if_true, hrf, hupd]

/-- C2 witness: a patch `1.0.0 -> 1.0.1` against a manifest at `0.0.0`
fails with the version mismatch without `force`. -/
theorem c2_witness :
    ("0.0.0" ≠ (mkPatch "1.0.0" "1.0.1").base_version) ∧
    Patch.apply (mkPatch "1.0.0" "1.0.1") { cache := none } (dbInit 0 0 1) false
      = (({ cache := some (initDoc 0) }, dbInit 0 0 1),
         .error (.versionMismatch "1.0.0" "0.0.0")) :=
  ⟨by decide,
    (c2_apply_mismatch_vs_force (mkPatch "1.0.0" "1.0.1") { cache := none }
      { cache := some (initDoc 0) } (dbInit 0 0 1) "0.0.0" (initDoc 0)
      rfl (by decide) rfl (by simp [mkPatch]) (by decide)).1 []⟩

/-! ## C6 -/

/-- A raising fix at the head of the fix loop propagates its error. -/
theorem runFixes_cons_error {f : FixRoutine} {db db2 : DB} {e : String}
    (h : f.run db = (db2, .error e)) :
    ∀ (rest : List FixRoutine) (acc : List String),
      runFixes (f :: rest) db acc = (db2, .error (.fixError e)) := by
  intro rest acc
  rw [runFixes, h]

/-- C6: when the fixes are `pre ++ f :: post` with every fix of `pre`
well-behaved and `f` raising, `apply` propagates the fix error immediately:
the result does not depend on `post` (no later fix runs), the database
returned is exactly the state after running `pre` and `f`'s own mutation
(nothing is rolled back), and the manifest document still records the base
version (no update was performed). -/
theorem c6_fix_error_aborts (pre : List FixRoutine) (f : FixRoutine) (msg : String)
    (base target : String) (pn psn : Option String) (hist : List HistoryEntry)
    (db : DB)
    (hdb : db.manifest = some { version := base, history := hist })
    (hpre : ∀ g ∈ pre, FixOk g)
    (hf : ∀ d, (f.run d).1.manifest = d.manifest ∧ (f.run d).2 = .error msg) :
    ∃ dbk,
      (∀ post : List FixRoutine,
        Patch.apply (patchOf base target pn psn (pre ++ f :: post))
          { cache := none } db false
        = (({ cache := some { version := base, history := hist } }, dbk),
           .error (.fixError msg))) ∧
      dbk = (f.run (runFixes pre db []).1).1 ∧
      dbk.manifest = some { version := base, history := hist } := by
  obtain ⟨db2, pss2, hrf, hm2⟩ := runFixes_ok pre hpre db []
  have hfm := (hf db2).1
  have hfe := (hf db2).2
  have hrun : f.run db2 = ((f.run db2).1, Except.error msg) := by rw [← hfe]
  refine ⟨(f.run db2).1, ?_, ?_, ?_⟩
  · intro post
    have hcba : Patch.can_be_applied (patchOf base target pn psn (pre ++ f :: post))
        { cache := none } db
        = ({ cache := some { version := base, history := hist } }, .ok ()) := by
      rw [Patch.can_be_applied, Manifest.version, Manifest.load]
      simp [hdb, patchOf]
    rw [Patch.apply]
    simp only [Bool.false_eq_true, if_false, hcba]
    have hrfs : runFixes (patchOf base target pn psn (pre ++ f :: post)).fixes db []
        = ((f.run db2).1, .error (.fixError msg)) := by
      show runFixes (pre ++ f :: post) db [] = _
      rw [runFixes_append, hrf]
      exact runFixes_cons_error hrun post pss2
    simp only [hrfs]
  · rw [hrf]
  · rw [hfm, hm2, hdb]

/-- C6 witness: a single raising fix aborts a patch `0.0.0 -> 1.0.0`
against an initialized database, leaving the manifest at `0.0.0`. -/
theorem c6_witness :
    (dbInit 0 0 1).manifest = some (initDoc 0) ∧
    ∃ dbk,
      (∀ post : List FixRoutine,
        Patch.apply (patchOf "0.0.0" "1.0.0" none none ([] ++ badFix :: post))
          { cache := none } (dbInit 0 0 1) false
        = (({ cache := some { version := "0.0.0", history := (initDoc 0).history } }, dbk),
           .error (.fixError "boom"))) ∧
      dbk = (badFix.run (runFixes [] (dbInit 0 0 1) []).1).1 ∧
      dbk.manifest = some { version := "0.0.0", history := (initDoc 0).history } :=
  ⟨rfl,
    c6_fix_error_aborts [] badFix "boom" "0.0.0" "1.0.0" none none (initDoc 0).history
      (dbInit 0 0 1) rfl (by simp) (fun d => ⟨rfl, rfl⟩)⟩


/-! ## Loop unfolding lemmas -/

/-- The walk returns normally as soon as no patch is keyed on the current
version. -/
theorem daaLoop_none {dict : String → Option Patch} {dryRun : Bool} {fuel : Nat}
    {m : Manifest} {db : DB} {cur : String} {pss : List String}
    (h : dict cur = none) :
    daaLoop dict dryRun (fuel+1) m db cur pss = some ((m, db), .ok (cur, pss)) := by
  simp only [daaLoop, h]

/-- One dry-run step: drop the cache and advance the in-memory version. -/
theorem daaLoop_dry_some {dict : String → Option Patch} {fuel : Nat}
    {m : Manifest} {db : DB} {cur : String} {pss : List String} {patch : Patch}
    (h : dict cur = some patch) :
    daaLoop dict true (fuel+1) m db cur pss =
      daaLoop dict true fuel (Manifest.reload m) db patch.target_version
        (if (psSeed patch ++ []).isEmpty then pss
         else pss ++ [mkPatchPssEntry patch.target_version (psSeed patch ++ [])]) := by
  simp only [daaLoop, h, if_true]

/-- One applying step of the walk when the patch applies cleanly. -/
theorem daaLoop_apply_some {dict : String → Option Patch} {fuel : Nat}
    {m m2 : Manifest} {db db2 : DB} {cur : String} {pss apss : List String}
    {patch : Patch}
    (h : dict cur = some patch)
    (ha : Patch.apply patch m db false = ((m2, db2), .ok apss)) :
    daaLoop dict false (fuel+1) m db cur pss =
      daaLoop dict false fuel (Manifest.reload m2) db2 patch.target_version
        (if (psSeed patch ++ apss).isEmpty then pss
         else pss ++ [mkPatchPssEntry patch.target_version (psSeed patch ++ apss)]) := by
  simp only [daaLoop, h, Bool.false_eq_true, if_false, ha]

/-- A raising `apply` aborts the walk with the state it reached. -/
theorem daaLoop_apply_error {dict : String → Option Patch} {fuel : Nat}
    {m m2 : Manifest} {db db2 : DB} {cur : String} {pss : List String}
    {patch : Patch} {e : MpError}
    (h : dict cur = some patch)
    (ha : Patch.apply patch m db false = ((m2, db2), .error e)) :
    daaLoop dict false (fuel+1) m db cur pss = some ((m2, db2), .error e) := by
  simp only [daaLoop, h, Bool.false_eq_true, if_false, ha]

/-- An uninitialized database makes `discover_and_apply` raise at the
initial version read, before any patch is considered. -/
theorem daa_version_error {patches : List Patch} {dryRun : Bool} {m m2 : Manifest}
    {db : DB} {fuel : Nat} {e : MpError}
    (hv : Manifest.version m db = (m2, .error e)) :
    discover_and_apply patches dryRun m db fuel = some ((m2, db), .error e) := by
  simp only [discover_and_apply, hv]

/-- No patch keyed on the initial version: report and return. -/
theorem daa_no_patch {patches : List Patch} {dryRun : Bool} {m m2 : Manifest}
    {db : DB} {fuel : Nat} {current : String}
    (hv : Manifest.version m db = (m2, .ok current))
    (hd : buildPatchesDict (sortPatches patches) current = none) :
    discover_and_apply patches dryRun m db fuel = some ((m2, db), .ok none) := by
  simp only [discover_and_apply, hv, hd]

/-- Some patch is keyed on the initial version: run the walk. -/
theorem daa_loop_case {patches : List Patch} {dryRun : Bool} {m m2 : Manifest}
    {db : DB} {fuel : Nat} {current : String} {p0 : Patch}
    (hv : Manifest.version m db = (m2, .ok current))
    (hd : buildPatchesDict (sortPatches patches) current = some p0) :
    discover_and_apply patches dryRun m db fuel =
      (daaLoop (buildPatchesDict (sortPatches patches)) dryRun fuel m2 db current []).map
        (fun r => (r.1, r.2.map (fun x => some x))) := by
  simp only [discover_and_apply, hv, hd]

/-! ## C3 -/

/-- A dry-run walk returns the database untouched and never raises. -/
theorem daaLoop_dry_keeps_db : ∀ (fuel : Nat) (dict : String → Option Patch)
    (m : Manifest) (db : DB) (cur : String) (pss : List String)
    (st : Manifest × DB) (r : Except MpError (String × List String)),
    daaLoop dict true fuel m db cur pss = some (st, r) →
      st.2 = db ∧ ∃ fv fps, r = Except.ok (fv, fps)
  | 0, dict, m, db, cur, pss, st, r => by
    intro h
    simp [daaLoop] at h
  | fuel+1, dict, m, db, cur, pss, st, r => by
    intro h
    cases hdict : dict cur with
    | none =>
      rw [daaLoop_none hdict] at h
      simp only [Option.some.injEq, Prod.mk.injEq] at h
      obtain ⟨h1, h2⟩ := h
      exact ⟨by rw [← h1], cur, pss, h2.symm⟩
    | some patch =>
      rw [daaLoop_dry_some hdict] at h
      exact daaLoop_dry_keeps_db fuel dict _ db _ _ st r h

/-- A dry-run walk does not depend on any patch's fix routines. -/
theorem daaLoop_fix_independent : ∀ (fuel : Nat) (dict : String → Option Patch)
    (m : Manifest) (db : DB) (cur : String) (pss : List String),
    daaLoop (fun w => (dict w).map stripFixes) true fuel m db cur pss =
      daaLoop dict true fuel m db cur pss
  | 0, _, _, _, _, _ => rfl
  | fuel+1, dict, m, db, cur, pss => by
    cases hdict : dict cur with
    | none =>
      have hd2 : (fun w => (dict w).map stripFixes) cur = none := by
        show (dict cur).map stripFixes = none
        rw [hdict]
        rfl
      rw [daaLoop_none hdict, daaLoop_none hd2]
    | some patch =>
      have hd2 : (fun w => (dict w).map stripFixes) cur = some (stripFixes patch) := by
        show (dict cur).map stripFixes = some (stripFixes patch)
        rw [hdict]
        rfl
      rw [daaLoop_dry_some hdict, daaLoop_dry_some hd2]
      exact daaLoop_fix_independent fuel dict (Manifest.reload m) db patch.target_version _

/-- Ordered insertion commutes with forgetting fixes (the order only reads
`target_version`, which forgetting preserves). -/
theorem orderedInsert_strip (a : Patch) : ∀ (l : List Patch),
    List.orderedInsert patchLe (stripFixes a) (l.map stripFixes) =
      (List.orderedInsert patchLe a l).map stripFixes
  | [] => rfl
  | b :: t => by
    show (if patchLe (stripFixes a) (stripFixes b) then _ else _) = _
    by_cases h : patchLe a b
    · have h2 : patchLe (stripFixes a) (stripFixes b) := h
      rw [if_pos h2, List.orderedInsert, if_pos h]
      rfl
    · have h2 : ¬ patchLe (stripFixes a) (stripFixes b) := h
      rw [if_neg h2, List.orderedInsert, if_neg h, List.map_cons]
      rw [orderedInsert_strip a t]

/-- The discovery sort commutes with forgetting fixes. -/
theorem sortPatches_strip : ∀ (l : List Patch),
    sortPatches (l.map stripFixes) = (sortPatches l).map stripFixes
  | [] => rfl
  | a :: t => by
    rw [List.map_cons]
    show List.orderedInsert patchLe (stripFixes a)
        (List.insertionSort patchLe (t.map stripFixes)) = _
    rw [show List.insertionSort patchLe (t.map stripFixes)
        = (List.insertionSort patchLe t).map stripFixes from sortPatches_strip t]
    rw [orderedInsert_strip]
    rfl

/-- The base-version map commutes with forgetting fixes. -/
theorem buildPatchesDict_strip (l : List Patch) (v : String) :
    buildPatchesDict (l.map stripFixes) v = (buildPatchesDict l v).map stripFixes := by
  rw [buildPatchesDict_eq_find, buildPatchesDict_eq_find, ← List.map_reverse,
    List.find?_map]
  rfl

/-- C3: a dry run never mutates the persisted database (the stored manifest
document, hence its version and history, is identical before and after) and
never executes a fix routine: the whole call computes the same answer when
every patch's fix list is erased. -/
theorem c3_dry_run_frame :
    (∀ (patches : List Patch) (m : Manifest) (db : DB) (fuel : Nat)
        (st : Manifest × DB) (r : Except MpError (Option (String × List String))),
      discover_and_apply patches true m db fuel = some (st, r) → st.2 = db) ∧
    (∀ (patches : List Patch) (m : Manifest) (db : DB) (fuel : Nat),
      discover_and_apply (patches.map stripFixes) true m db fuel =
        discover_and_apply patches true m db fuel) := by
  constructor
  · intro patches m db fuel st r h
    rcases hv : Manifest.version m db with ⟨m2, rv⟩
    cases rv with
    | error e =>
      rw [daa_version_error hv] at h
      simp only [Option.some.injEq, Prod.mk.injEq] at h
      rw [← h.1]
    | ok current =>
      cases hdict : buildPatchesDict (sortPatches patches) current with
      | none =>
        rw [daa_no_patch hv hdict] at h
        simp only [Option.some.injEq, Prod.mk.injEq] at h
        rw [← h.1]
      | some p0 =>
        rw [daa_loop_case hv hdict] at h
        rcases hl : daaLoop (buildPatchesDict (sortPatches patches)) true fuel m2 db
            current [] with _ | ⟨st2, r2⟩
        · rw [hl] at h
          simp at h
        · rw [hl] at h
          simp only [Option.map_some', Option.some.injEq, Prod.mk.injEq] at h
          obtain ⟨hst, _⟩ := h
          rw [← hst]
          exact (daaLoop_dry_keeps_db fuel _ m2 db current [] st2 r2 hl).1
  · intro patches m db fuel
    have hfun : buildPatchesDict (sortPatches (patches.map stripFixes)) =
        fun w => (buildPatchesDict (sortPatches patches) w).map stripFixes := by
      funext w
      rw [sortPatches_strip, buildPatchesDict_strip]
    rcases hv : Manifest.version m db with ⟨m2, rv⟩
    cases rv with
    | error e => rw [daa_version_error hv, daa_version_error hv]
    | ok current =>
      cases hdict : buildPatchesDict (sortPatches patches) current with
      | none =>
        have hd2 : buildPatchesDict (sortPatches (patches.map stripFixes)) current = none := by
          rw [sortPatches_strip, buildPatchesDict_strip, hdict]
          rfl
        rw [daa_no_patch hv hdict, daa_no_patch hv hd2]
      | some p0 =>
        have hd2 : buildPatchesDict (sortPatches (patches.map stripFixes)) current
            = some (stripFixes p0) := by
          rw [sortPatches_strip, buildPatchesDict_strip, hdict]
          rfl
        rw [daa_loop_case hv hdict, daa_loop_case hv hd2, hfun,
          daaLoop_fix_independent]

/-- C3 witness: the empty patch set against an initialized database leaves
the database exactly as it was. -/
theorem c3_witness :
    discover_and_apply [] true { cache := none } (dbInit 0 0 1) 1
      = some ((({ cache := some (initDoc 0) } : Manifest), dbInit 0 0 1), .ok none) ∧
    ((({ cache := some (initDoc 0) } : Manifest), dbInit 0 0 1)).2 = dbInit 0 0 1 :=
  ⟨rfl, c3_dry_run_frame.1 [] { cache := none } (dbInit 0 0 1) 1 _ _ rfl⟩

/-! ## C1 -/

/-- Reading the version with a cold cache populates the cache from the
stored document. -/
theorem version_of_db {db : DB} {doc : ManifestDoc} (h : db.manifest = some doc) :
    Manifest.version { cache := none } db = ({ cache := some doc }, .ok doc.version) := by
  simp [Manifest.version, Manifest.load, h]

/-- A patch whose base version matches the manifest, whose fixes are
well-behaved and whose target version is well-formed applies cleanly,
appending exactly one history entry. -/
theorem apply_ok_general (p : Patch) (m m' : Manifest) (db : DB) (doc : ManifestDoc)
    (hv : Manifest.version m db = (m', .ok p.base_version))
    (hdb : db.manifest = some doc)
    (hfix : ∀ f ∈ p.fixes, FixOk f)
    (htv : versionFormatOk p.target_version = true) :
    ∃ db3 pss t,
      Patch.apply p m db false = ((m', db3), .ok pss) ∧
      db3.manifest = some
        { version := p.target_version,
          history := doc.history ++
            [{ timestamp := t, version := p.target_version,
               reason := some ("Upgrade from " ++ p.base_version) }] } := by
  have hcba : Patch.can_be_applied p m db = (m', .ok ()) := by
    simp [Patch.can_be_applied, hv]
  obtain ⟨db2, pss, hrf, hm2⟩ := runFixes_ok p.fixes hfix db []
  have hm2d : db2.manifest = some doc := hm2.trans hdb
  have hupd : Manifest.update db2 p.target_version
      (some ("Upgrade from " ++ p.base_version)) =
      (⟨some ⟨p.target_version, doc.history ++
          [⟨db2.clock, p.target_version, some ("Upgrade from " ++ p.base_version)⟩]⟩,
        db2.data, db2.clock + 1⟩, .ok ()) := by
    rw [Manifest.update]
    simp [htv, hm2d]
  refine ⟨⟨some ⟨p.target_version, doc.history ++
      [⟨db2.clock, p.target_version, some ("Upgrade from " ++ p.base_version)⟩]⟩,
      db2.data, db2.clock + 1⟩, pss, db2.clock, ?_, rfl⟩
  rw [Patch.apply]
  simp only [Bool.false_eq_true, if_false, hcba, hrf, hupd]

/-- C1: on the chain `0.0.0 -> 1.0.0 -> 1.0.1 -> 1.0.2 -> 1.1.0` with the
manifest initialized at `0.0.0` and every fix well-behaved,
`discover_and_apply` terminates (any fuel of at least five loop iterations
suffices), returning normally with the persisted manifest at `1.1.0` and a
history of exactly five entries: the initialization entry followed by one
entry per applied patch, in application order. -/
theorem c1_chain_discover_and_apply (f1 f2 f3 f4 : List FixRoutine)
    (h1 : ∀ f ∈ f1, FixOk f) (h2 : ∀ f ∈ f2, FixOk f)
    (h3 : ∀ f ∈ f3, FixOk f) (h4 : ∀ f ∈ f4, FixOk f)
    (t0 d c k : Nat) :
    ∃ mf dbf pss,
      discover_and_apply (chainPatches f1 f2 f3 f4) false { cache := none }
        (dbInit t0 d c) (k + 5)
        = some ((mf, dbf), .ok (some ("1.1.0", pss))) ∧
      ∃ hist, dbf.manifest = some { version := "1.1.0", history := hist } ∧
        hist.map HistoryEntry.version = ["0.0.0", "1.0.0", "1.0.1", "1.0.2", "1.1.0"] ∧
        hist.length = 5 := by
  have hv0 : Manifest.version { cache := none } (dbInit t0 d c)
      = ({ cache := some (initDoc t0) }, .ok "0.0.0") := rfl
  have hd0 : buildPatchesDict (sortPatches (chainPatches f1 f2 f3 f4)) "0.0.0"
      = some (chainPatch1 f1) := rfl
  have hd1 : buildPatchesDict (sortPatches (chainPatches f1 f2 f3 f4)) "1.0.0"
      = some (chainPatch2 f2) := rfl
  have hd2 : buildPatchesDict (sortPatches (chainPatches f1 f2 f3 f4)) "1.0.1"
      = some (chainPatch3 f3) := rfl
  have hd3 : buildPatchesDict (sortPatches (chainPatches f1 f2 f3 f4)) "1.0.2"
      = some (chainPatch4 f4) := rfl
  have hd4 : buildPatchesDict (sortPatches (chainPatches f1 f2 f3 f4)) "1.1.0"
      = none := rfl
  have hv1 : Manifest.version { cache := some (initDoc t0) } (dbInit t0 d c)
      = ({ cache := some (initDoc t0) }, .ok "0.0.0") := rfl
  obtain ⟨db3, pss1, t1, happ1, hman1⟩ :=
    apply_ok_general (chainPatch1 f1) { cache := some (initDoc t0) }
      { cache := some (initDoc t0) } (dbInit t0 d c) (initDoc t0) hv1 rfl h1 (by show versionFormatOk "1.0.0" = true; decide)
  obtain ⟨db4, pss2, t2, happ2, hman2⟩ :=
    apply_ok_general (chainPatch2 f2) { cache := none } _ db3 _
      (version_of_db hman1) hman1 h2 (by show versionFormatOk "1.0.1" = true; decide)
  obtain ⟨db5, pss3, t3, happ3, hman3⟩ :=
    apply_ok_general (chainPatch3 f3) { cache := none } _ db4 _
      (version_of_db hman2) hman2 h3 (by show versionFormatOk "1.0.2" = true; decide)
  obtain ⟨db6, pss4, t4, happ4, hman4⟩ :=
    apply_ok_general (chainPatch4 f4) { cache := none } _ db5 _
      (version_of_db hman3) hman3 h4 (by show versionFormatOk "1.1.0" = true; decide)
  have ht1 : (chainPatch1 f1).target_version = "1.0.0" := rfl
  have ht2 : (chainPatch2 f2).target_version = "1.0.1" := rfl
  have ht3 : (chainPatch3 f3).target_version = "1.0.2" := rfl
  have ht4 : (chainPatch4 f4).target_version = "1.1.0" := rfl
  have e5 : k + 5 = (k + 4) + 1 := rfl
  have e4 : k + 4 = (k + 3) + 1 := rfl
  have e3 : k + 3 = (k + 2) + 1 := rfl
  have e2 : k + 2 = (k + 1) + 1 := rfl
  rw [daa_loop_case hv0 hd0, e5, daaLoop_apply_some hd0 happ1]
  simp only [Manifest.reload]
  rw [ht1, e4, daaLoop_apply_some hd1 happ2]
  simp only [Manifest.reload]
  rw [ht2, e3, daaLoop_apply_some hd2 happ3]
  simp only [Manifest.reload]
  rw [ht3, e2, daaLoop_apply_some hd3 happ4]
  simp only [Manifest.reload]
  rw [ht4, daaLoop_none hd4]
  simp only [Option.map_some', Except.map]
  refine ⟨_, db6, _, rfl, _, hman4, ?_, ?_⟩
  · simp [initDoc, chainPatch1, chainPatch2, chainPatch3, chainPatch4]
  · simp [initDoc]

/-- C1 witness: the chain with no registered fixes, run with the minimal
fuel, lands on `1.1.0` with a five-entry history. -/
theorem c1_witness :
    (∀ f ∈ ([] : List FixRoutine), FixOk f) ∧
    ∃ mf dbf pss,
      discover_and_apply (chainPatches [] [] [] []) false { cache := none }
        (dbInit 0 0 1) (0 + 5)
        = some ((mf, dbf), .ok (some ("1.1.0", pss))) ∧
      ∃ hist, dbf.manifest = some { version := "1.1.0", history := hist } ∧
        hist.map HistoryEntry.version = ["0.0.0", "1.0.0", "1.0.1", "1.0.2", "1.1.0"] ∧
        hist.length = 5 :=
  ⟨by simp,
    c1_chain_discover_and_apply [] [] [] [] (by simp) (by simp) (by simp) (by simp)
      0 0 1 0⟩

/-! ## C7 -/

/-- Every version visited by the walk (with an outgoing edge) is the base
version of some patch in the list the map was built from. -/
theorem chainList_mem_bases : ∀ (n : Nat) (l : List Patch) (v w : String),
    w ∈ chainList (buildPatchesDict l) n v → w ∈ l.map Patch.base_version
  | 0, l, v, w => by
    intro h
    simp [chainList] at h
  | n+1, l, v, w => by
    intro h
    rw [chainList] at h
    cases hd : buildPatchesDict l v with
    | none =>
      rw [hd] at h
      simp at h
    | some p =>
      rw [hd] at h
      rcases List.mem_cons.mp h with hw | h2
      · rw [buildPatchesDict_eq_find] at hd
        have hmem : p ∈ l := List.mem_reverse.mp (List.mem_of_find?_eq_some hd)
        have hpv := List.find?_some hd
        have hpv2 : p.base_version = v := beq_iff_eq.mp hpv
        exact List.mem_map.mpr ⟨p, hmem, by rw [hpv2, ← hw]⟩
      · exact chainList_mem_bases n l p.target_version w h2

/-- While the walk has not terminated it visits one version per unit of
fuel. -/
theorem chainList_length_of_not_term : ∀ (n : Nat) (dict : String → Option Patch)
    (v : String), walkTerm dict n v = false → (chainList dict n v).length = n
  | 0, dict, v => by
    intro _
    simp [chainList]
  | n+1, dict, v => by
    intro h
    rw [walkTerm] at h
    rw [chainList]
    cases hd : dict v with
    | none =>
      rw [hd] at h
      simp at h
    | some p =>
      rw [hd] at h
      simp [chainList_length_of_not_term n dict p.target_version h]

/-- If no prefix of the walk repeats a version, the walk leaves the (finite)
set of base versions within `number of patches + 1` steps: the pigeonhole
argument behind termination. -/
theorem walkTerm_of_nodup (l : List Patch) (v : String)
    (h : ∀ n, (chainList (buildPatchesDict l) n v).Nodup) :
    walkTerm (buildPatchesDict l) ((l.map Patch.base_version).length + 1) v = true := by
  by_contra hterm
  rw [Bool.not_eq_true] at hterm
  have hlen := chainList_length_of_not_term _ _ _ hterm
  have hnd := h ((l.map Patch.base_version).length + 1)
  have hcard : (chainList (buildPatchesDict l)
      ((l.map Patch.base_version).length + 1) v).length
      ≤ (l.map Patch.base_version).length := by
    calc (chainList (buildPatchesDict l) ((l.map Patch.base_version).length + 1) v).length
        = (chainList (buildPatchesDict l)
            ((l.map Patch.base_version).length + 1) v).toFinset.card :=
          (List.toFinset_card_of_nodup hnd).symm
      _ ≤ (l.map Patch.base_version).toFinset.card := by
          apply Finset.card_le_card
          intro x hx
          rw [List.mem_toFinset] at hx
          rw [List.mem_toFinset]
          exact chainList_mem_bases _ l v x hx
      _ ≤ (l.map Patch.base_version).length := List.toFinset_card_le _
  omega

/-- A walk that terminates in the pure version graph terminates in the
stateful loop (normally or with a propagated exception), whatever the
database does. -/
theorem daaLoop_isSome {dict : String → Option Patch} : ∀ (fuel : Nat) (cur : String),
    walkTerm dict fuel cur = true →
    ∀ (dryRun : Bool) (m : Manifest) (db : DB) (pss : List String),
      (daaLoop dict dryRun fuel m db cur pss).isSome = true
  | 0, cur => by
    intro h
    simp [walkTerm] at h
  | fuel+1, cur => by
    intro h dryRun m db pss
    rw [walkTerm] at h
    cases hdict : dict cur with
    | none =>
      rw [daaLoop_none hdict]
      rfl
    | some patch =>
      rw [hdict] at h
      cases dryRun with
      | true =>
        rw [daaLoop_dry_some hdict]
        exact daaLoop_isSome fuel patch.target_version h true _ db _
      | false =>
        rcases happ : Patch.apply patch m db false with ⟨⟨m2, db2⟩, r⟩
        cases r with
        | error e =>
          rw [daaLoop_apply_error hdict happ]
          rfl
        | ok apss =>
          rw [daaLoop_apply_some hdict happ]
          exact daaLoop_isSome fuel patch.target_version h false _ db2 _

/-- C7: whenever the chain of versions reachable from the initial manifest
version through the base-to-target edges repeats no version, the
`discover_and_apply` loop terminates after finitely many steps — a fuel of
`number of discovered patches + 1` iterations always suffices. -/
theorem c7_acyclic_chain_terminates (patches : List Patch) (dryRun : Bool)
    (m : Manifest) (db : DB)
    (h : ∀ v, (Manifest.version m db).2 = .ok v →
      ∀ n, (chainList (buildPatchesDict (sortPatches patches)) n v).Nodup) :
    ∃ fuel, (discover_and_apply patches dryRun m db fuel).isSome = true := by
  rcases hv : Manifest.version m db with ⟨m2, rv⟩
  cases rv with
  | error e =>
    refine ⟨1, ?_⟩
    rw [daa_version_error hv]
    rfl
  | ok current =>
    have hnod := h current (by rw [hv])
    have hterm := walkTerm_of_nodup (sortPatches patches) current hnod
    refine ⟨((sortPatches patches).map Patch.base_version).length + 1, ?_⟩
    cases hd : buildPatchesDict (sortPatches patches) current with
    | none =>
      rw [daa_no_patch hv hd]
      rfl
    | some p =>
      rw [daa_loop_case hv hd, Option.isSome_map']
      exact daaLoop_isSome _ current hterm dryRun m2 db []

/-- C7 witness: the empty patch set has an empty reachable chain, and the
call indeed returns. -/
theorem c7_witness :
    (∀ v, (Manifest.version { cache := none } (dbInit 0 0 1)).2 = .ok v →
      ∀ n, (chainList (buildPatchesDict (sortPatches [])) n v).Nodup) ∧
    ∃ fuel, (discover_and_apply [] false { cache := none }
        (dbInit 0 0 1) fuel).isSome = true := by
  have hh : ∀ v, (Manifest.version { cache := none } (dbInit 0 0 1)).2 = .ok v →
      ∀ n, (chainList (buildPatchesDict (sortPatches [])) n v).Nodup := by
    intro v _ n
    cases n with
    | zero => exact List.nodup_nil
    | succ j => exact List.nodup_nil
  exact ⟨hh, c7_acyclic_chain_terminates [] false { cache := none } (dbInit 0 0 1) hh⟩
